import Mathlib

/-!
Verification development for the frame-resource pipelining core of the
TreeBillboards application (A2_Sarras_Asper.cpp): the N-buffered dirty-counter
propagation used by `UpdateObjectCBs` / `UpdateMaterialCBs`, the fence-based
frame-slot ring driven by `Update` / `Draw`, the per-tick operation order, the
fixed-step height-field accumulator, and the waves index/texcoord generation.
-/

namespace TreeBillboards

/-- `gNumFrameResources` from the source: the number of frame resources
(physical replicas) in the ring. -/
def gNumFrameResources : ℕ := 3

/-- One replicated entry (a `RenderItem` or `Material`): the authoritative
logical value, the `NumFramesDirty` countdown, and one physical constant-buffer
copy per frame resource.  The payload type `V` stands for the matrices /
material constants; the physical copies hold the derived representation
(`derive` below stands for the transpose packing in `UpdateObjectCBs` /
`UpdateMaterialCBs`). -/
structure Entry (V : Type) where
  value : V
  numFramesDirty : ℕ
  copies : Fin 3 → V

/-- The per-entry body of `UpdateObjectCBs` / `UpdateMaterialCBs` for the frame
resource at index `slot`: if `NumFramesDirty > 0`, recompute the derived
representation of the authoritative value, write it into this frame resource's
constant-buffer copy (`CopyData`), and decrement the counter; otherwise leave
the entry untouched. -/
def flushEntry {V : Type} (derive : V → V) (slot : Fin 3) (e : Entry V) :
    Entry V :=
  if e.numFramesDirty > 0 then
    { e with copies := Function.update e.copies slot (derive e.value),
             numFramesDirty := e.numFramesDirty - 1 }
  else e

/-- An edit of a replicated entry, as in `AnimateMaterials` (mutate
`MatTransform` then set `NumFramesDirty = gNumFrameResources`) or a `World`
edit on a `RenderItem`: store the new authoritative value and set the dirty
counter to `gNumFrameResources` by plain assignment. -/
def editEntry {V : Type} (v : V) (e : Entry V) : Entry V :=
  { e with value := v, numFramesDirty := gNumFrameResources }

/-- A sequence of flush passes over one entry: one `UpdateObjectCBs` /
`UpdateMaterialCBs` visit per list element (the slot index of the frame
resource current at that tick), oldest first. -/
def flushSeq {V : Type} (derive : V → V) (slots : List (Fin 3)) (e : Entry V) :
    Entry V :=
  slots.foldl (fun acc s => flushEntry derive s acc) e

/-- The observable operations of one tick of the frame loop
(`TreeBillboardsApp::Update` followed by `TreeBillboardsApp::Draw`). -/
inductive Ev where
  | acquireSlot      -- advance mCurrFrameResourceIndex and pick mCurrFrameResource
  | fenceWait        -- block until mFence completed value reaches the slot's Fence
  | animateMaterials -- AnimateMaterials: edit water material, set NumFramesDirty
  | updateObjectCBs  -- UpdateObjectCBs: flush dirty render items into this slot
  | updateMaterialCBs -- UpdateMaterialCBs: flush dirty materials into this slot
  | updateMainPassCB -- UpdateMainPassCB: write the per-pass constants
  | wavesStepEv      -- mWaves->Update(dt): advance the height-field simulation
  | wavesCopy        -- copy wave positions/normals into the slot's dynamic VB
  | recordCommands   -- Draw: record and submit the command list for this slot
  | publishFence     -- Draw: mCurrFrameResource->Fence = ++mCurrentFence; Signal
deriving DecidableEq, BEq, Repr

/-- The operations of `TreeBillboardsApp::Update`, in source order (lines
244-268; `UpdateWaves` performs the simulation step and then the vertex-buffer
copy, lines 509-547). -/
def updateEvents : List Ev :=
  [.acquireSlot, .fenceWait, .animateMaterials, .updateObjectCBs,
   .updateMaterialCBs, .updateMainPassCB, .wavesStepEv, .wavesCopy]

/-- The operations of `TreeBillboardsApp::Draw`, in source order (lines
270-337): record/submit the command list, then publish the new fence target. -/
def drawEvents : List Ev := [.recordCommands, .publishFence]

/-- One full tick: `Update` then `Draw`. -/
def tickEvents : List Ev := updateEvents ++ drawEvents

/-- Position of an operation within the tick. -/
def evPos (e : Ev) : ℕ := tickEvents.indexOf e

/-- The possible observations of one poll of the frame-fence wait in
`TreeBillboardsApp::Update` (lines 253-261): either the guard lets the CPU
proceed, or the thread is (still) blocked in the INFINITE wait.  The source
has no other outcome: no timeout and no device-loss error path. -/
inductive WaitOutcome where
  | proceed
  | stillBlocked
deriving DecidableEq, Repr

/-- The fence-wait guard of `Update` (line 255):
`mCurrFrameResource->Fence != 0 && mFence->GetCompletedValue() < Fence`. -/
def acquireBlocks (fence completed : ℕ) : Bool :=
  decide (fence ≠ 0) && decide (completed < fence)

/-- The state of the wait at poll time `t`, for a completion-counter trace
`counter : ℕ → ℕ`: the source blocks in `WaitForSingleObject(event, INFINITE)`
while the guard holds, and proceeds as soon as the completed value reaches the
slot's fence (or the slot was never submitted, `Fence == 0`). -/
def fenceWaitRun (counter : ℕ → ℕ) (fence t : ℕ) : WaitOutcome :=
  if acquireBlocks fence (counter t) then .stillBlocked else .proceed

/-- The fence/frame-resource state mutated by `Update`/`Draw`:
`mCurrentFence`, each frame resource's recorded `Fence`, and
`mCurrFrameResourceIndex`. -/
structure FenceState where
  currentFence : ℕ
  frameFence : Fin 3 → ℕ
  currIndex : Fin 3

/-- The slot advance of `Update` (line 250):
`mCurrFrameResourceIndex = (mCurrFrameResourceIndex + 1) % gNumFrameResources`. -/
def updateIndex (s : FenceState) : FenceState :=
  { s with currIndex := s.currIndex + 1 }

/-- The publish of `Draw` (lines 330-336):
`mCurrFrameResource->Fence = ++mCurrentFence` followed by
`Signal(mFence, mCurrentFence)`. -/
def drawPublish (s : FenceState) : FenceState :=
  { s with currentFence := s.currentFence + 1,
           frameFence := Function.update s.frameFence s.currIndex
             (s.currentFence + 1) }

/-- One tick's effect on the fence state: `Update`'s slot advance, then
`Draw`'s publish. -/
def tickFence (s : FenceState) : FenceState :=
  drawPublish (updateIndex s)

/-- The fence target issued by the `(n+1)`-th publish after state `s`
(the value of `mCurrentFence` right after that tick's `++mCurrentFence`). -/
def publishedTarget (s : FenceState) (n : ℕ) : ℕ :=
  (tickFence^[n + 1] s).currentFence

/-- Modelled from the spec: `Waves::VertexCount()` (Waves.h/Waves.cpp are not
in the repository snapshot).  The grid has `rows × cols` samples. -/
def wavesVertexCount (m n : ℕ) : ℕ := m * n

/-- Modelled from the spec: `Waves::TriangleCount()` (Waves.h/Waves.cpp are
not in the repository snapshot).  A grid of `m` rows and `n` columns has
`(m-1)·(n-1)` quads, two triangles each. -/
def wavesTriangleCount (m n : ℕ) : ℕ := 2 * (m - 1) * (n - 1)

/-- The six index entries the inner loop body of
`TreeBillboardsApp::BuildWavesGeometry` (lines 916-922) writes for the quad at
row `i`, column `j` of a grid with `n` columns. -/
def quadIndices (n i j : ℕ) : List ℕ :=
  [i * n + j, i * n + j + 1, (i + 1) * n + j,
   (i + 1) * n + j, i * n + j + 1, (i + 1) * n + j + 1]

/-- The index entries written by the inner loop of `BuildWavesGeometry` for
row `i`, for `j = 0, …, jmax - 1`, in write order. -/
def rowIndices (n i : ℕ) : ℕ → List ℕ
  | 0 => []
  | jmax + 1 => rowIndices n i jmax ++ quadIndices n i jmax

/-- The index entries written by the outer loop of `BuildWavesGeometry` for
rows `i = 0, …, imax - 1`, in write order. -/
def rowsIndices (n : ℕ) : ℕ → List ℕ
  | 0 => []
  | imax + 1 => rowsIndices n imax ++ rowIndices n imax (n - 1)

/-- All index entries written by `BuildWavesGeometry` (lines 908-926) for an
`m × n` grid: the double loop runs `i < m - 1`, `j < n - 1`. -/
def wavesIndices (m n : ℕ) : List ℕ := rowsIndices n (m - 1)

/-- The texture coordinates `TreeBillboardsApp::UpdateWaves` stores for a wave
vertex at position `(x, _, z)` (lines 537-540):
`TexC.x = 0.5 + x / Width`, `TexC.y = 0.5 - z / Depth`. -/
def wavesTexC (width depth x z : ℚ) : ℚ × ℚ :=
  (1 / 2 + x / width, 1 / 2 - z / depth)

/-- Modelled from the spec: the fixed-step accumulator loop of
`Waves::Update` (Waves.cpp is not in the repository snapshot; §4.3 Step):
while `accumulatedTime ≥ dt`, perform one discrete simulation step and
subtract `dt`.  Returns the number of discrete steps drained from the
accumulator value `acc`. -/
def drainSteps (dt acc : ℚ) : ℕ :=
  if h : 0 < dt ∧ dt ≤ acc then drainSteps dt (acc - dt) + 1 else 0
termination_by ⌊acc / dt⌋₊
decreasing_by
  have hdt := h.1
  have hle := h.2
  have h1 : (acc - dt) / dt = acc / dt - 1 := by
    field_simp
  have h2 : (1 : ℚ) ≤ acc / dt := (one_le_div hdt).mpr hle
  have h3 : 1 ≤ ⌊acc / dt⌋₊ := Nat.le_floor (by exact_mod_cast h2)
  have h4 : ⌊(acc - dt) / dt⌋₊ = ⌊acc / dt⌋₊ - 1 := by
    rw [h1]
    exact_mod_cast Nat.floor_sub_nat (acc / dt) 1
  omega

/-- Modelled from the spec: one `Waves::Update(realDeltaTime)` call acting on
the running state `(stepsSoFar, accumulatedTime)`: add the real delta to the
accumulator, then drain it in fixed-size steps of `dt`. -/
def stepAccum (dt : ℚ) (st : ℕ × ℚ) (r : ℚ) : ℕ × ℚ :=
  let a := st.2 + r
  let k := drainSteps dt a
  (st.1 + k, a - k * dt)

/-- Modelled from the spec: a sequence of `Waves::Update` calls with the given
real-time deltas, starting from a zero accumulator.  First component: total
number of discrete simulation steps executed. -/
def runSteps (dt : ℚ) (deltas : List ℚ) : ℕ × ℚ :=
  deltas.foldl (stepAccum dt) (0, 0)

/-- Modelled from the spec: the height-field state (§3, §4.3; Waves.cpp is not
in the repository snapshot).  Two retained time layers of heights (`prev` =
heights[t-1], `curr` = heights[t]; the third layer of the source is the
scratch target rotated in by each step) on a `rows × cols` grid, with the
stencil coefficients `k1`, `k2`, `k3` derived from `waveSpeed`, `spacing`,
`dt` and `damping` at construction. -/
structure HeightField where
  rows : ℕ
  cols : ℕ
  k1 : ℚ
  k2 : ℚ
  k3 : ℚ
  prev : ℕ → ℕ → ℚ
  curr : ℕ → ℕ → ℚ

/-- A cell subject to the update stencil: strictly inside the outer boundary
rows and columns. -/
def HeightField.interior (hf : HeightField) (i j : ℕ) : Prop :=
  1 ≤ i ∧ i + 1 < hf.rows ∧ 1 ≤ j ∧ j + 1 < hf.cols

instance (hf : HeightField) (i j : ℕ) : Decidable (hf.interior i j) := by
  unfold HeightField.interior; infer_instance

/-- A cell on the grid's outer boundary rows or columns. -/
def HeightField.boundary (hf : HeightField) (i j : ℕ) : Prop :=
  i = 0 ∨ i + 1 = hf.rows ∨ j = 0 ∨ j + 1 = hf.cols

/-- Modelled from the spec: one discrete simulation step (§4.3).  For every
interior sample the next height is the weighted combination of the sample's
two prior heights and its four orthogonal neighbors at the current layer;
boundary samples are not written, so the scratch layer keeps their `prev`
values there.  The layers are then rotated: the new layer becomes `curr` and
the old `curr` becomes `prev`. -/
def HeightField.step (hf : HeightField) : HeightField :=
  { hf with
    prev := hf.curr
    curr := fun i j =>
      if hf.interior i j then
        hf.k1 * hf.prev i j + hf.k2 * hf.curr i j +
          hf.k3 * (hf.curr (i + 1) j + hf.curr (i - 1) j +
                   hf.curr i (j + 1) + hf.curr i (j - 1))
      else hf.prev i j }

/-- Modelled from the spec: `Waves::Disturb(i, j, magnitude)` (§4.3).  A
localized bump: the full magnitude at the target cell and half of it at the
four orthogonal neighbors, accepted only when the whole neighborhood lies in
the interior; out-of-interior-bounds coordinates are rejected with no state
mutation. -/
def HeightField.disturb (hf : HeightField) (i j : ℕ) (m : ℚ) : HeightField :=
  if 2 ≤ i ∧ i + 2 < hf.rows ∧ 2 ≤ j ∧ j + 2 < hf.cols then
    { hf with
      curr := fun a b =>
        if a = i ∧ b = j then hf.curr a b + m
        else if (a = i + 1 ∧ b = j) ∨ (a + 1 = i ∧ b = j) ∨
                (a = i ∧ b = j + 1) ∨ (a = i ∧ b + 1 = j) then
          hf.curr a b + m / 2
        else hf.curr a b }
  else hf

/-- An externally observable operation on the height field: a discrete
simulation step, or a disturbance injected between steps. -/
inductive WaveOp where
  | step
  | disturb (i j : ℕ) (m : ℚ)

/-- Apply one operation to the height field. -/
def HeightField.applyOp (hf : HeightField) : WaveOp → HeightField
  | .step => hf.step
  | .disturb i j m => hf.disturb i j m

/-- Apply a sequence of operations to the height field, oldest first. -/
def HeightField.runOps (hf : HeightField) (ops : List WaveOp) : HeightField :=
  ops.foldl HeightField.applyOp hf

theorem fin3_cover : ∀ (s0 s1 s2 i : Fin 3), s0 ≠ s1 → s0 ≠ s2 → s1 ≠ s2 →
    i = s0 ∨ i = s1 ∨ i = s2 := by decide

/-- C1: a replicated entry edited once (dirty counter set to
`gNumFrameResources = 3`) and then flushed by three `UpdateObjectCBs` /
`UpdateMaterialCBs` passes at three distinct frame-resource indices ends with
all three physical constant-buffer copies holding the derived representation
of the edited value and the counter at 0, and any further flush leaves the
entry completely unchanged until the next edit. -/
theorem dirty_propagation_convergence {V : Type} (derive : V → V) (v : V)
    (e : Entry V) (s0 s1 s2 : Fin 3)
    (h01 : s0 ≠ s1) (h02 : s0 ≠ s2) (h12 : s1 ≠ s2) :
    (∀ i : Fin 3,
      (flushEntry derive s2 (flushEntry derive s1 (flushEntry derive s0
        (editEntry v e)))).copies i = derive v) ∧
    (flushEntry derive s2 (flushEntry derive s1 (flushEntry derive s0
      (editEntry v e)))).numFramesDirty = 0 ∧
    (∀ s : Fin 3,
      flushEntry derive s (flushEntry derive s2 (flushEntry derive s1
        (flushEntry derive s0 (editEntry v e)))) =
      flushEntry derive s2 (flushEntry derive s1 (flushEntry derive s0
        (editEntry v e)))) := by
  have he : flushEntry derive s2 (flushEntry derive s1 (flushEntry derive s0
      (editEntry v e))) =
      { value := v, numFramesDirty := 0,
        copies := Function.update (Function.update (Function.update e.copies
          s0 (derive v)) s1 (derive v)) s2 (derive v) } := rfl
  refine ⟨?_, ?_, ?_⟩
  · intro i
    rw [he]
    rcases fin3_cover s0 s1 s2 i h01 h02 h12 with h | h | h <;> subst h <;>
      simp [Function.update_apply, h01, h02, h12]
  · rw [he]
  · intro s
    rw [he]
    rfl

/-- Witness for C1 at a concrete entry: payload `ℕ`, identity derivation,
edit to `5`, flushes at slots `0`, `1`, `2`. -/
theorem dirty_propagation_convergence_witness :
    (flushEntry id 2 (flushEntry id 1 (flushEntry id 0
      (editEntry 5 (⟨0, 0, fun _ => 0⟩ : Entry ℕ))))).copies 0 = id 5 :=
  (dirty_propagation_convergence id 5 ⟨0, 0, fun _ => 0⟩ 0 1 2
    (by decide) (by decide) (by decide)).1 0

theorem flushSeq_cons {V : Type} (derive : V → V) (s : Fin 3)
    (l : List (Fin 3)) (e : Entry V) :
    flushSeq derive (s :: l) e = flushSeq derive l (flushEntry derive s e) :=
  rfl

theorem flushEntry_copies_other {V : Type} (derive : V → V) (a s : Fin 3)
    (e : Entry V) (h : s ≠ a) :
    (flushEntry derive a e).copies s = e.copies s := by
  unfold flushEntry
  split
  · simp [Function.update_apply, h]
  · rfl

theorem flushSeq_copies_not_mem {V : Type} (derive : V → V) :
    ∀ (l : List (Fin 3)) (e : Entry V) (s : Fin 3), s ∉ l →
      (flushSeq derive l e).copies s = e.copies s := by
  intro l
  induction l with
  | nil =>
      intro e s _
      rfl
  | cons a t ih =>
      intro e s hs
      rw [List.mem_cons, not_or] at hs
      rw [flushSeq_cons, ih _ s hs.2, flushEntry_copies_other derive a s e hs.1]

theorem flushEntry_dirty_pos {V : Type} (derive : V → V) (s : Fin 3)
    (e : Entry V) (h : 0 < e.numFramesDirty) :
    (flushEntry derive s e).numFramesDirty = e.numFramesDirty - 1 := by
  unfold flushEntry
  rw [if_pos h]

theorem flushSeq_dirty {V : Type} (derive : V → V) :
    ∀ (l : List (Fin 3)) (e : Entry V), l.length ≤ e.numFramesDirty →
      (flushSeq derive l e).numFramesDirty = e.numFramesDirty - l.length := by
  intro l
  induction l with
  | nil =>
      intro e _
      rfl
  | cons a t ih =>
      intro e h
      simp only [List.length_cons] at h
      have h0 : 0 < e.numFramesDirty := by omega
      rw [flushSeq_cons,
        ih (flushEntry derive a e)
          (by rw [flushEntry_dirty_pos derive a e h0]; omega),
        flushEntry_dirty_pos derive a e h0]
      simp only [List.length_cons]
      omega

/-- C2: an edit sets the dirty counter to `gNumFrameResources = 3` by
assignment, regardless of its current value; so for an entry re-dirtied after
any `k` of `N` flushes (`0 < k < N`, the flushed slots arbitrary), the full
propagation window restarts: the counter is back at `N`, the presumed
remaining `N - k` flushes leave the counter at `k > 0` with every slot they
did not visit still holding its pre-re-dirty copy, while `N` further flushes
covering all `N` distinct slots leave every physical copy holding the derived
second edit and the counter at 0. -/
theorem redirty_restarts_window {V : Type} (derive : V → V) (v1 v2 : V)
    (e : Entry V) (pre post : List (Fin 3)) (s0 s1 s2 : Fin 3)
    (hk1 : 0 < pre.length) (hk2 : pre.length < 3)
    (hpost : post.length = 3 - pre.length)
    (h01 : s0 ≠ s1) (h02 : s0 ≠ s2) (h12 : s1 ≠ s2) :
    (∀ e' : Entry V, (editEntry v2 e').numFramesDirty = gNumFrameResources) ∧
    (editEntry v2 (flushSeq derive pre (editEntry v1 e))).numFramesDirty
      = 3 ∧
    ((flushSeq derive post (editEntry v2 (flushSeq derive pre
      (editEntry v1 e)))).numFramesDirty = pre.length ∧ pre.length ≠ 0) ∧
    (∀ s : Fin 3, s ∉ post →
      (flushSeq derive post (editEntry v2 (flushSeq derive pre
        (editEntry v1 e)))).copies s =
      (flushSeq derive pre (editEntry v1 e)).copies s) ∧
    (∀ i : Fin 3,
      (flushSeq derive [s0, s1, s2] (editEntry v2 (flushSeq derive pre
        (editEntry v1 e)))).copies i = derive v2) ∧
    (flushSeq derive [s0, s1, s2] (editEntry v2 (flushSeq derive pre
      (editEntry v1 e)))).numFramesDirty = 0 := by
  have he : flushSeq derive [s0, s1, s2] (editEntry v2 (flushSeq derive pre
      (editEntry v1 e))) =
      { value := v2, numFramesDirty := 0,
        copies := Function.update (Function.update (Function.update
          (flushSeq derive pre (editEntry v1 e)).copies s0 (derive v2)) s1
          (derive v2)) s2 (derive v2) } := rfl
  refine ⟨fun _ => rfl, rfl, ⟨?_, by omega⟩, ?_, ?_, ?_⟩
  · rw [flushSeq_dirty derive post
      (editEntry v2 (flushSeq derive pre (editEntry v1 e)))
      (by show post.length ≤ 3; omega)]
    show 3 - post.length = pre.length
    omega
  · intro s hs
    rw [flushSeq_copies_not_mem derive post _ s hs]
    rfl
  · intro i
    rw [he]
    rcases fin3_cover s0 s1 s2 i h01 h02 h12 with h | h | h <;> subst h <;>
      simp [Function.update_apply, h01, h02, h12]
  · rw [he]

/-- Witness for C2 at a concrete entry: payload `ℕ`, identity derivation,
edit to `7`, one flush at slot `0` (`k = 1`), re-edit to `9`, then the
presumed remaining two flushes at slots `1`, `2`: slot `0`, unvisited, still
holds its pre-re-dirty copy. -/
theorem redirty_restarts_window_witness :
    (flushSeq id [1, 2] (editEntry 9 (flushSeq id [0]
      (editEntry 7 (⟨0, 0, fun _ => 0⟩ : Entry ℕ))))).copies 0 =
    (flushSeq id [0] (editEntry 7 (⟨0, 0, fun _ => 0⟩ : Entry ℕ))).copies 0 :=
  (redirty_restarts_window id 7 9 ⟨0, 0, fun _ => 0⟩ [0] [1, 2] 0 1 2
    (by decide) (by decide) (by decide) (by decide) (by decide)
    (by decide)).2.2.2.1 0 (by decide)

/-- C3 counterexample: the claimed order (height-field step (b) before the
dirty-constant flush (d)) is false of the code.  In the tick of the source,
`UpdateObjectCBs` (and `UpdateMaterialCBs`) run before `UpdateWaves`'s call to
`mWaves->Update`: the flush of dirty object constants precedes the simulation
step. -/
theorem tick_order_claim_false :
    evPos .updateObjectCBs = 3 ∧ evPos .wavesStepEv = 6 ∧
    evPos .updateObjectCBs < evPos .wavesStepEv ∧
    evPos .updateMaterialCBs < evPos .wavesStepEv := by decide

/-- C3 (amended): the actual strict per-tick order of the source: acquire the
frame slot, block on the fence, edit the water material, flush dirty object
constants, flush dirty material constants, write the pass constants, advance
the height-field simulation, copy its output into the slot's dynamic vertex
buffer, record/submit the commands, and publish the new fence target. -/
theorem tick_order_actual :
    evPos .acquireSlot < evPos .fenceWait ∧
    evPos .fenceWait < evPos .animateMaterials ∧
    evPos .animateMaterials < evPos .updateObjectCBs ∧
    evPos .updateObjectCBs < evPos .updateMaterialCBs ∧
    evPos .updateMaterialCBs < evPos .updateMainPassCB ∧
    evPos .updateMainPassCB < evPos .wavesStepEv ∧
    evPos .wavesStepEv < evPos .wavesCopy ∧
    evPos .wavesCopy < evPos .recordCommands ∧
    evPos .recordCommands < evPos .publishFence := by decide

/-- C4 counterexample: with a completion counter stuck at `0` and a slot
previously submitted with fence target `1`, the frame-slot acquisition of the
source is still merely blocked after a million polls — the INFINITE wait never
turns the situation into a distinct device-loss error. -/
theorem fence_wait_no_timeout_error :
    fenceWaitRun (fun _ => 0) 1 1000000 = .stillBlocked := by decide

/-- C4 (amended): when the completion counter has not reached a submitted
slot's fence target, the acquisition blocks indefinitely: at every poll time
it is in the ordinary still-blocked state, and it proceeds exactly when the
counter reaches the target or the slot was never submitted; no distinct
device-loss or timeout outcome exists in this code path. -/
theorem fence_wait_blocks_indefinitely (counter : ℕ → ℕ) (fence t : ℕ) :
    fenceWaitRun counter fence t = .stillBlocked ↔
      fence ≠ 0 ∧ counter t < fence := by
  simp only [fenceWaitRun, acquireBlocks]
  by_cases h1 : fence = 0 <;> by_cases h2 : counter t < fence <;>
    simp [h1, h2]

/-- C5: acquisition of a frame slot blocks exactly when the slot was
previously submitted (recorded fence nonzero) and the completed counter has
not reached that fence; it proceeds immediately when the counter has reached
it or the slot was never submitted; and within the tick the fence wait
precedes every CPU write into the slot's buffers (constant-buffer flushes,
pass constants, and the dynamic vertex-buffer copy). -/
theorem acquire_blocking_iff (fence completed : ℕ) :
    (acquireBlocks fence completed = true ↔ fence ≠ 0 ∧ completed < fence) ∧
    (acquireBlocks fence completed = false ↔ fence = 0 ∨ fence ≤ completed) ∧
    evPos .fenceWait < evPos .animateMaterials ∧
    evPos .fenceWait < evPos .updateObjectCBs ∧
    evPos .fenceWait < evPos .updateMaterialCBs ∧
    evPos .fenceWait < evPos .updateMainPassCB ∧
    evPos .fenceWait < evPos .wavesCopy := by
  refine ⟨?_, ?_, by decide, by decide, by decide, by decide, by decide⟩
  · simp [acquireBlocks]
  · by_cases h1 : fence = 0 <;> by_cases h2 : completed < fence <;>
      simp [acquireBlocks, h1, h2] <;> omega

theorem tickFence_currentFence (s : FenceState) (n : ℕ) :
    (tickFence^[n] s).currentFence = s.currentFence + n := by
  induction n with
  | zero => simp
  | succ k ih =>
      rw [Function.iterate_succ_apply']
      simp [tickFence, drawPublish, updateIndex, ih]
      omega

/-- C6: the fence targets issued by successive publishes
(`mCurrFrameResource->Fence = ++mCurrentFence` in `Draw`) are strictly
increasing across the ring's lifetime: for any two publishes after a state
`s`, the later publish records the strictly greater target. -/
theorem publish_targets_strictly_increasing (s : FenceState) (m n : ℕ)
    (h : m < n) : publishedTarget s m < publishedTarget s n := by
  simp only [publishedTarget, tickFence_currentFence]
  omega

/-- Witness for C6: from a fresh state, the first two publishes issue targets
`1 < 2`. -/
theorem publish_targets_strictly_increasing_witness :
    publishedTarget ⟨0, fun _ => 0, 0⟩ 0 < publishedTarget ⟨0, fun _ => 0, 0⟩ 1 :=
  publish_targets_strictly_increasing ⟨0, fun _ => 0, 0⟩ 0 1 (by decide)

theorem drainSteps_eq_floor (dt : ℚ) (hdt : 0 < dt) : ∀ acc : ℚ, 0 ≤ acc →
    drainSteps dt acc = ⌊acc / dt⌋₊ := by
  intro acc
  induction acc using drainSteps.induct dt with
  | case1 acc h ih =>
      intro hacc
      rw [drainSteps, dif_pos h, ih (by linarith [h.2])]
      have h1 : (acc - dt) / dt = acc / dt - 1 := by
        field_simp
      have h2 : (1 : ℚ) ≤ acc / dt := (one_le_div hdt).mpr h.2
      have h3 : 1 ≤ ⌊acc / dt⌋₊ := Nat.le_floor (by exact_mod_cast h2)
      have h4 : ⌊acc / dt - 1⌋₊ = ⌊acc / dt⌋₊ - 1 := by
        exact_mod_cast Nat.floor_sub_nat (acc / dt) 1
      rw [h1, h4]
      omega
  | case2 acc h =>
      intro hacc
      rw [drainSteps, dif_neg h]
      have hlt : acc < dt := by
        by_contra hge
        exact h ⟨hdt, by linarith⟩
      exact (Nat.floor_eq_zero.mpr ((div_lt_one hdt).mpr hlt)).symm

theorem drain_residual (dt acc : ℚ) (hdt : 0 < dt) (hacc : 0 ≤ acc) :
    0 ≤ acc - drainSteps dt acc * dt ∧ acc - drainSteps dt acc * dt < dt := by
  rw [drainSteps_eq_floor dt hdt acc hacc]
  have h0 : (0 : ℚ) ≤ acc / dt := div_nonneg hacc hdt.le
  have h1 : (⌊acc / dt⌋₊ : ℚ) ≤ acc / dt := Nat.floor_le h0
  have h2 : acc / dt < ⌊acc / dt⌋₊ + 1 := Nat.lt_floor_add_one _
  have h3 : (⌊acc / dt⌋₊ : ℚ) * dt ≤ acc := (le_div_iff₀ hdt).mp h1
  have h4 : acc < (⌊acc / dt⌋₊ + 1) * dt := (div_lt_iff₀ hdt).mp h2
  constructor <;> nlinarith

theorem runSteps_invariant (dt : ℚ) (hdt : 0 < dt) :
    ∀ deltas : List ℚ, (∀ d ∈ deltas, 0 ≤ d) → ∀ st : ℕ × ℚ,
      0 ≤ st.2 → st.2 < dt →
      (deltas.foldl (stepAccum dt) st).1 = st.1 + ⌊(st.2 + deltas.sum) / dt⌋₊ := by
  intro deltas
  induction deltas with
  | nil =>
      intro _ st h0 h1
      simp [Nat.floor_eq_zero.mpr ((div_lt_one hdt).mpr h1)]
  | cons d ds ih =>
      intro hd st h0 h1
      have hS : 0 ≤ ds.sum :=
        List.sum_nonneg fun x hx => hd x (List.mem_cons_of_mem d hx)
      have hda : 0 ≤ d := hd d (List.mem_cons_self d ds)
      have ha : 0 ≤ st.2 + d := by linarith
      have hk : drainSteps dt (st.2 + d) = ⌊(st.2 + d) / dt⌋₊ :=
        drainSteps_eq_floor dt hdt _ ha
      have hres := drain_residual dt (st.2 + d) hdt ha
      have hih := ih (fun x hx => hd x (List.mem_cons_of_mem d hx))
        (stepAccum dt st d)
        (by simpa [stepAccum] using hres.1)
        (by simpa [stepAccum] using hres.2)
      simp only [List.foldl_cons, List.sum_cons]
      rw [hih]
      simp only [stepAccum, hk]
      have hq : (0 : ℚ) ≤ (st.2 + d - ⌊(st.2 + d) / dt⌋₊ * dt + ds.sum) / dt :=
        div_nonneg (by rw [hk] at hres; linarith [hres.1]) hdt.le
      have key : (st.2 + (d + ds.sum)) / dt =
          (st.2 + d - ⌊(st.2 + d) / dt⌋₊ * dt + ds.sum) / dt + ⌊(st.2 + d) / dt⌋₊ := by
        field_simp
        ring
      rw [key, Nat.floor_add_nat hq]
      omega

/-- C7: fixed-step determinism of the height-field clock (modelled from the
spec; Waves.cpp is not in the repository snapshot).  For any positive fixed
step `dt` and any finite sequence of nonnegative `Update(realDeltaTime)`
deltas, the total number of discrete simulation steps executed equals
`⌊(sum of the deltas) / dt⌋` — a function of the total elapsed time alone,
independent of how it was chunked across calls. -/
theorem fixed_step_determinism (dt : ℚ) (deltas : List ℚ) (hdt : 0 < dt)
    (hdeltas : ∀ d ∈ deltas, 0 ≤ d) :
    (runSteps dt deltas).1 = ⌊deltas.sum / dt⌋₊ := by
  have h := runSteps_invariant dt hdt deltas hdeltas (0, 0) le_rfl hdt
  simpa [runSteps] using h

/-- Witness for C7: `dt = 1/3`, deltas `[1/2, 3/4]` summing to `5/4`, giving
`⌊(5/4)/(1/3)⌋ = 3` steps. -/
theorem fixed_step_determinism_witness :
    (runSteps (1/3 : ℚ) [1/2, 3/4]).1 = ⌊(([1/2, 3/4] : List ℚ).sum) / (1/3 : ℚ)⌋₊ :=
  fixed_step_determinism (1/3) [1/2, 3/4] (by norm_num)
    (by intro d hd; fin_cases hd <;> norm_num)

theorem runOps_boundary_aux (hf0 : HeightField) (ops : List WaveOp) :
    ∀ hf : HeightField, hf.rows = hf0.rows → hf.cols = hf0.cols →
      (∀ i j, hf0.boundary i j → hf.curr i j = hf0.curr i j) →
      (∀ i j, hf0.boundary i j → hf.prev i j = hf0.curr i j) →
      (hf.runOps ops).rows = hf0.rows ∧ (hf.runOps ops).cols = hf0.cols ∧
      (∀ i j, hf0.boundary i j → (hf.runOps ops).curr i j = hf0.curr i j) ∧
      (∀ i j, hf0.boundary i j → (hf.runOps ops).prev i j = hf0.curr i j) := by
  induction ops with
  | nil =>
      intro hf h1 h2 h3 h4
      exact ⟨h1, h2, h3, h4⟩
  | cons op rest ih =>
      intro hf h1 h2 h3 h4
      have hrw : hf.runOps (op :: rest) = (hf.applyOp op).runOps rest := rfl
      rw [hrw]
      match op with
      | .step =>
          apply ih
          · exact h1
          · exact h2
          · intro i j hb
            have hni : ¬ hf.interior i j := by
              have hb' := hb
              unfold HeightField.boundary at hb'
              unfold HeightField.interior
              rw [h1, h2]
              omega
            show (if hf.interior i j then _ else hf.prev i j) = hf0.curr i j
            rw [if_neg hni]
            exact h4 i j hb
          · intro i j hb
            exact h3 i j hb
      | .disturb i0 j0 m =>
          by_cases hg : 2 ≤ i0 ∧ i0 + 2 < hf.rows ∧ 2 ≤ j0 ∧ j0 + 2 < hf.cols
          · have hd : hf.disturb i0 j0 m =
                { hf with
                  curr := fun a b =>
                    if a = i0 ∧ b = j0 then hf.curr a b + m
                    else if (a = i0 + 1 ∧ b = j0) ∨ (a + 1 = i0 ∧ b = j0) ∨
                            (a = i0 ∧ b = j0 + 1) ∨ (a = i0 ∧ b + 1 = j0) then
                      hf.curr a b + m / 2
                    else hf.curr a b } := by
              unfold HeightField.disturb
              rw [if_pos hg]
            have happ : hf.applyOp (.disturb i0 j0 m) = hf.disturb i0 j0 m := rfl
            rw [happ, hd]
            rw [h1, h2] at hg
            apply ih
            · exact h1
            · exact h2
            · intro i j hb
              have hb' := hb
              unfold HeightField.boundary at hb'
              have hc1 : ¬(i = i0 ∧ j = j0) := by omega
              have hc2 : ¬((i = i0 + 1 ∧ j = j0) ∨ (i + 1 = i0 ∧ j = j0) ∨
                  (i = i0 ∧ j = j0 + 1) ∨ (i = i0 ∧ j + 1 = j0)) := by omega
              show (if i = i0 ∧ j = j0 then hf.curr i j + m
                else if (i = i0 + 1 ∧ j = j0) ∨ (i + 1 = i0 ∧ j = j0) ∨
                        (i = i0 ∧ j = j0 + 1) ∨ (i = i0 ∧ j + 1 = j0) then
                  hf.curr i j + m / 2
                else hf.curr i j) = hf0.curr i j
              rw [if_neg hc1, if_neg hc2]
              exact h3 i j hb
            · intro i j hb
              exact h4 i j hb
          · have hd : hf.disturb i0 j0 m = hf := by
              unfold HeightField.disturb
              rw [if_neg hg]
            have happ : hf.applyOp (.disturb i0 j0 m) = hf.disturb i0 j0 m := rfl
            rw [happ, hd]
            exact ih hf h1 h2 h3 h4

/-- C8: boundary invariance of the height field (modelled from the spec;
Waves.cpp is not in the repository snapshot).  For any sequence of simulation
steps interleaved with disturbances, and any height field whose two retained
layers agree on the outer boundary initially, every boundary sample's height
(in both layers) stays at its initial value: the interior stencil never
writes a boundary cell and disturbances outside the interior are rejected. -/
theorem boundary_invariant (hf : HeightField) (ops : List WaveOp)
    (hinit : ∀ i j, hf.boundary i j → hf.prev i j = hf.curr i j)
    (i j : ℕ) (hb : hf.boundary i j) :
    (hf.runOps ops).curr i j = hf.curr i j ∧
    (hf.runOps ops).prev i j = hf.curr i j := by
  have h := runOps_boundary_aux hf ops hf rfl rfl (fun _ _ _ => rfl) hinit
  exact ⟨h.2.2.1 i j hb, h.2.2.2 i j hb⟩

/-- Witness for C8: a 6×6 field at rest, disturbed at interior cell (2,2) and
stepped twice; the boundary sample (0,3) still reads its initial height. -/
theorem boundary_invariant_witness :
    (HeightField.runOps ⟨6, 6, 1, 1, 1, fun _ _ => 0, fun _ _ => 0⟩
      [.disturb 2 2 1, .step, .step]).curr 0 3 =
    (⟨6, 6, 1, 1, 1, fun _ _ => 0, fun _ _ => 0⟩ : HeightField).curr 0 3 :=
  (boundary_invariant ⟨6, 6, 1, 1, 1, fun _ _ => 0, fun _ _ => 0⟩
    [.disturb 2 2 1, .step, .step] (fun _ _ _ => rfl) 0 3 (Or.inl rfl)).1

/-- C9: for a wave vertex whose position lies in the grid extent
`[-Width/2, Width/2] × [-Depth/2, Depth/2]`, `UpdateWaves` stores texture
coordinates `u = 0.5 + x/Width`, `v = 0.5 - z/Depth`, and both lie in
`[0, 1]`. -/
theorem waves_texcoords (width depth x z : ℚ) (hw : 0 < width)
    (hd : 0 < depth) (hx1 : -(width / 2) ≤ x) (hx2 : x ≤ width / 2)
    (hz1 : -(depth / 2) ≤ z) (hz2 : z ≤ depth / 2) :
    wavesTexC width depth x z = (1 / 2 + x / width, 1 / 2 - z / depth) ∧
    0 ≤ (wavesTexC width depth x z).1 ∧ (wavesTexC width depth x z).1 ≤ 1 ∧
    0 ≤ (wavesTexC width depth x z).2 ∧ (wavesTexC width depth x z).2 ≤ 1 := by
  refine ⟨rfl, ?_, ?_, ?_, ?_⟩
  · show (0 : ℚ) ≤ 1 / 2 + x / width
    have h : (-(1 / 2) : ℚ) ≤ x / width := (le_div_iff₀ hw).mpr (by linarith)
    linarith
  · show (1 : ℚ) / 2 + x / width ≤ 1
    have h : x / width ≤ 1 / 2 := (div_le_iff₀ hw).mpr (by linarith)
    linarith
  · show (0 : ℚ) ≤ 1 / 2 - z / depth
    have h : z / depth ≤ 1 / 2 := (div_le_iff₀ hd).mpr (by linarith)
    linarith
  · show (1 : ℚ) / 2 - z / depth ≤ 1
    have h : (-(1 / 2) : ℚ) ≤ z / depth := (le_div_iff₀ hd).mpr (by linarith)
    linarith

/-- Witness for C9: width 4, depth 4, position (1, -2) inside the extent. -/
theorem waves_texcoords_witness : 0 ≤ (wavesTexC 4 4 1 (-2)).1 :=
  (waves_texcoords 4 4 1 (-2) (by norm_num) (by norm_num) (by norm_num)
    (by norm_num) (by norm_num) (by norm_num)).2.1

theorem rowIndices_length (n i : ℕ) :
    ∀ jmax, (rowIndices n i jmax).length = 6 * jmax := by
  intro jmax
  induction jmax with
  | zero => rfl
  | succ k ih =>
      simp only [rowIndices, List.length_append, ih, quadIndices,
        List.length_cons, List.length_nil]
      omega

theorem rowsIndices_length (n : ℕ) :
    ∀ imax, (rowsIndices n imax).length = 6 * imax * (n - 1) := by
  intro imax
  induction imax with
  | zero => simp [rowsIndices]
  | succ k ih =>
      simp only [rowsIndices, List.length_append, ih, rowIndices_length]
      ring

theorem rowIndices_mem (n i : ℕ) : ∀ jmax x, x ∈ rowIndices n i jmax →
    ∃ j, j < jmax ∧ x ∈ quadIndices n i j := by
  intro jmax
  induction jmax with
  | zero =>
      intro x hx
      simp [rowIndices] at hx
  | succ k ih =>
      intro x hx
      simp only [rowIndices, List.mem_append] at hx
      rcases hx with h | h
      · obtain ⟨j, hj, hm⟩ := ih x h
        exact ⟨j, Nat.lt_succ_of_lt hj, hm⟩
      · exact ⟨k, Nat.lt_succ_self k, h⟩

theorem rowsIndices_mem (n : ℕ) : ∀ imax x, x ∈ rowsIndices n imax →
    ∃ i, i < imax ∧ x ∈ rowIndices n i (n - 1) := by
  intro imax
  induction imax with
  | zero =>
      intro x hx
      simp [rowsIndices] at hx
  | succ k ih =>
      intro x hx
      simp only [rowsIndices, List.mem_append] at hx
      rcases hx with h | h
      · obtain ⟨i, hi, hm⟩ := ih x h
        exact ⟨i, Nat.lt_succ_of_lt hi, hm⟩
      · exact ⟨k, Nat.lt_succ_self k, h⟩

theorem quadIndices_bound (m n i j x : ℕ) (hi : i < m - 1) (hj : j < n - 1)
    (hx : x ∈ quadIndices n i j) : x < m * n := by
  have hi2 : i + 2 ≤ m := by omega
  have hj2 : j + 2 ≤ n := by omega
  have key : (i + 1) * n + (j + 1) < m * n := by
    calc (i + 1) * n + (j + 1) < (i + 1) * n + n := by omega
    _ = (i + 2) * n := by ring
    _ ≤ m * n := Nat.mul_le_mul_right n hi2
  have hmono : i * n ≤ (i + 1) * n := Nat.mul_le_mul_right n (Nat.le_succ i)
  simp only [quadIndices, List.mem_cons, List.not_mem_nil, or_false] at hx
  rcases hx with h | h | h | h | h | h <;> subst h <;> linarith

/-- C10: for an `m × n` grid, `BuildWavesGeometry` writes exactly
`6·(m-1)·(n-1) = 3 · TriangleCount` index entries (so the double loop exactly
fills the preallocated vector of `3 * TriangleCount` entries), every emitted
index value is strictly below the vertex count `m·n`, and the application's
concrete 128×128 grid satisfies the asserted 16-bit bound
`VertexCount < 0xffff`. -/
theorem waves_index_bounds (m n : ℕ) :
    (wavesIndices m n).length = 3 * wavesTriangleCount m n ∧
    (∀ x ∈ wavesIndices m n, x < wavesVertexCount m n) ∧
    wavesVertexCount 128 128 < 0xffff := by
  refine ⟨?_, ?_, by norm_num [wavesVertexCount]⟩
  · show (rowsIndices n (m - 1)).length = _
    rw [rowsIndices_length]
    simp only [wavesTriangleCount]
    ring
  · intro x hx
    obtain ⟨i, hi, hxi⟩ := rowsIndices_mem n (m - 1) x hx
    obtain ⟨j, hj, hxj⟩ := rowIndices_mem n i (n - 1) x hxi
    exact quadIndices_bound m n i j x hi hj hxj

/-- Witness for C10: index value 8 is emitted for a 3×3 grid and is below the
vertex count 9. -/
theorem waves_index_bounds_witness :
    8 ∈ wavesIndices 3 3 ∧ 8 < wavesVertexCount 3 3 :=
  ⟨by decide, (waves_index_bounds 3 3).2.1 8 (by decide)⟩

end TreeBillboards
